import Mathlib

/-!
# Crown: one-shot audio mixer and kinematic object queries

A shallow embedding of `src/platform/platform_glfw.cpp` (`PlayingAudio`,
`audio_callback`, `platform_play_audio`) and of the inline members of
`src/Object.h` (`operator bool`, `get_x_at`, `get_y_at`).

Conventions of the embedding.

* The sample type is a parameter `α` carrying the addition the mixer uses.
  Theorems that speak of sums are stated over a commutative additive monoid,
  that is over exact arithmetic; rounding of `float` is not modelled.
* C++ `int` values are `Int`.  The one conversion the code performs,
  `static_cast<int>` of the `ma_uint32` frame count, is modelled with its
  wrap-around.  Overflow of `int` arithmetic itself is undefined in C++ and lies
  outside the embedding.
* Memory behind a pointer is a total function of the element offset.  Every
  element access the mixer performs is appended to an access log, so that the
  offsets actually used can be reasoned about.
* `std::vector<PlayingAudio>` is a `List`, an iterator is an index into it, and
  `erase(it)` is `List.eraseIdx`, which leaves the index on the next element.
-/

namespace Crown

/-! ## Data model -/

/-- Modelled from the spec: the declaration of `AudioBuffer` lives in `platform.h`,
which is absent.  The mixer uses exactly two members, `samples` (a smart pointer to
the mono sample array, read through `samples.get()`) and `sample_count` (an `int`),
the "samples + frame count" descriptor of the specification. -/
structure AudioBuffer (α : Type) where
  samples : Int → α
  sample_count : Int

/-- The record `struct PlayingAudio : AudioBuffer { int position{ }; }`. -/
structure PlayingAudio (α : Type) extends AudioBuffer α where
  position : Int

/-- One element access performed by the mixer.  `sampleRead sample_count index` is a
read of `samples[index]` of an instance whose `sample_count` is the first component;
`outputAccess index` is the read-modify-write `output_frames[index] += sample`. -/
inductive Access where
  | sampleRead (sample_count : Int) (index : Int)
  | outputAccess (index : Int)
  deriving DecidableEq

/-- The conversion `static_cast<int>(frame_count_)` of a 32-bit unsigned value:
values of `2^31` and above wrap to negative numbers. -/
def static_cast_int (frame_count_ : Nat) : Int :=
  if frame_count_ % 2 ^ 32 < 2 ^ 31 then ((frame_count_ % 2 ^ 32 : Nat) : Int)
  else ((frame_count_ % 2 ^ 32 : Nat) : Int) - 2 ^ 32

/-- The compound assignment `output_frames[i] += sample` on the memory of the output
buffer. -/
def add_at {α : Type} [Add α] (output_frames : Int → α) (i : Int) (sample : α) : Int → α :=
  fun j => if j = i then output_frames j + sample else output_frames j

/-! ## The inner loop of `audio_callback` -/

/-- The variables the inner `for` loop works on: the output index `i`, the instance
`it` points to (whose `position` the loop increments), the output memory and the
access log. -/
structure MixState (α : Type) where
  i : Int
  it : PlayingAudio α
  output_frames : Int → α
  log : List Access

/-- One pass through the body of the inner loop:
`sample = samples[position++]; output_frames[i++] += sample; output_frames[i++] += sample;`. -/
def mix_body {α : Type} [Add α] (st : MixState α) : MixState α :=
  let sample := st.it.samples st.it.position
  let it1 : PlayingAudio α := ⟨st.it.toAudioBuffer, st.it.position + 1⟩
  let out1 := add_at st.output_frames st.i sample
  let out2 := add_at out1 (st.i + 1) sample
  ⟨st.i + 2, it1, out2,
    st.log ++ [Access.sampleRead st.it.sample_count st.it.position,
               Access.outputAccess st.i, Access.outputAccess (st.i + 1)]⟩

/-- The inner loop `for (auto i = 0; i < 2 * sample_count; ) body`, entered at the state
`st`; the argument `sample_count` is the local constant of that name. -/
def mix_loop {α : Type} [Add α] (sample_count : Int) (st : MixState α) : MixState α :=
  if st.i < 2 * sample_count then mix_loop sample_count (mix_body st) else st
termination_by (2 * sample_count - st.i).toNat
decreasing_by
  simp only [mix_body]
  omega

/-! ## The outer loop of `audio_callback` -/

/-- The variables of the outer loop: the vector `g_playing_audio`, the iterator `it`
as an index into it, the output memory and the access log. -/
structure CallbackState (α : Type) where
  g_playing_audio : List (PlayingAudio α)
  it : Nat
  output_frames : Int → α
  log : List Access

/-- The outer loop `for (auto it = begin(g); it != end(g); )`; for an iterator between
`begin` and `end`, as `it` always is, `it != end(g)` is `it < length`.  The instance under
the iterator is mixed by the inner loop; afterwards it is erased when
`it->position == it->sample_count` (the iterator then stays on the same index, which now
holds the next element) and kept, with its advanced position, otherwise. -/
def audio_loop {α : Type} [Add α] (frame_count : Int) (st : CallbackState α) :
    CallbackState α :=
  if h : st.it < st.g_playing_audio.length then
    let a := st.g_playing_audio.get ⟨st.it, h⟩
    let sample_count := min (a.sample_count - a.position) frame_count
    let r := mix_loop sample_count ⟨0, a, st.output_frames, st.log⟩
    if r.it.position = r.it.sample_count then
      audio_loop frame_count
        ⟨st.g_playing_audio.eraseIdx st.it, st.it, r.output_frames, r.log⟩
    else
      audio_loop frame_count
        ⟨st.g_playing_audio.set st.it r.it, st.it + 1, r.output_frames, r.log⟩
  else st
termination_by st.g_playing_audio.length - st.it
decreasing_by
  · simp only [List.length_eraseIdx, h, if_true]
    omega
  · simp only [List.length_set]
    omega

/-- What a call of `audio_callback` leaves behind: the output buffer (`none` stands
for the null pointer), the vector `g_playing_audio`, and the element accesses made
by the mixing loops. -/
structure CallbackResult (α : Type) where
  output_frames : Option (Int → α)
  g_playing_audio : List (PlayingAudio α)
  log : List Access

/-- The function `audio_callback(ma_device*, void* output_frames_, const void*, ma_uint32 frame_count_)`.
The external `platform_music_callback(output_frames, frame_count)` is a parameter: it
receives the output memory and the frame count and returns the output memory it
leaves. -/
def audio_callback {α : Type} [Add α]
    (platform_music_callback : (Int → α) → Int → (Int → α))
    (output_frames_ : Option (Int → α)) (frame_count_ : Nat)
    (g_playing_audio : List (PlayingAudio α)) : CallbackResult α :=
  let frame_count := static_cast_int frame_count_
  match output_frames_ with
  | some output_frames =>
    if frame_count ≠ 0 then
      let music := platform_music_callback output_frames frame_count
      let r := audio_loop frame_count ⟨g_playing_audio, 0, music, []⟩
      ⟨some r.output_frames, r.g_playing_audio, r.log⟩
    else ⟨some output_frames, g_playing_audio, []⟩
  | none => ⟨none, g_playing_audio, []⟩

/-- The function `platform_play_audio(AudioBuffer buffer)`:
`g_playing_audio.push_back({ std::move(buffer) })`, the new instance having
`position` value-initialised to zero. -/
def platform_play_audio {α : Type} (buffer : AudioBuffer α)
    (g_playing_audio : List (PlayingAudio α)) : List (PlayingAudio α) :=
  g_playing_audio ++ [⟨buffer, 0⟩]

/-! ## Sequences of operations -/

/-- An operation on the vector `g_playing_audio`: a call of `platform_play_audio` or an
invocation of `audio_callback` by the audio device. -/
inductive Op (α : Type) where
  | play (buffer : AudioBuffer α)
  | callback (output_frames_ : Option (Int → α)) (frame_count_ : Nat)

/-- The effect of one operation on the vector `g_playing_audio`. -/
def Op.apply {α : Type} [Add α] (platform_music_callback : (Int → α) → Int → (Int → α))
    (g : List (PlayingAudio α)) : Op α → List (PlayingAudio α)
  | Op.play buffer => platform_play_audio buffer g
  | Op.callback output_frames_ frame_count_ =>
    (audio_callback platform_music_callback output_frames_ frame_count_ g).g_playing_audio

/-- The vector `g_playing_audio` after the operations of `ops`, performed in order. -/
def run_ops {α : Type} [Add α] (platform_music_callback : (Int → α) → Int → (Int → α))
    (ops : List (Op α)) (g : List (PlayingAudio α)) : List (PlayingAudio α) :=
  ops.foldl (Op.apply platform_music_callback) g

/-- The operation is an invocation of `audio_callback`. -/
def Op.is_callback {α : Type} : Op α → Bool
  | Op.play _ => false
  | Op.callback _ _ => true

/-- The frame count of an invocation of `audio_callback`, as the `int` the callback
works with; a call of `platform_play_audio` counts for nothing. -/
def Op.frames {α : Type} : Op α → Int
  | Op.play _ => 0
  | Op.callback _ frame_count_ => static_cast_int frame_count_

/-- The total of the frame counts of the invocations of `audio_callback` among `ops`. -/
def frames_requested {α : Type} (ops : List (Op α)) : Int :=
  (ops.map Op.frames).sum

/-- An invocation of `audio_callback` mixes when its output pointer is not null and its
frame count is positive as an `int`; nothing is asked of a call of
`platform_play_audio`. -/
def Op.mixes {α : Type} : Op α → Prop
  | Op.play _ => True
  | Op.callback output_frames_ frame_count_ =>
    (∃ out, output_frames_ = some out) ∧ 0 < static_cast_int frame_count_

/-! ## Vocabulary of the statements -/

/-- The cursor of an instance lies within `[0, sample_count]`. -/
def cursor_ok {α : Type} (a : PlayingAudio α) : Prop :=
  0 ≤ a.position ∧ a.position ≤ a.sample_count

/-- The instance `a` after one pass of the outer loop body with the given
`frame_count`: its cursor has moved by `min (sample_count - position) frame_count`
when that number is positive, and not at all otherwise. -/
def advance {α : Type} (frame_count : Int) (a : PlayingAudio α) : PlayingAudio α :=
  ⟨a.toAudioBuffer, a.position + max 0 (min (a.sample_count - a.position) frame_count)⟩

/-- What one instance adds to element `j` of the output during a call with the given
`frame_count`: its sample `position + j / 2` for the elements of its first
`min (sample_count - position) frame_count` frames, and nothing elsewhere. -/
def contribution {α : Type} [Zero α] (frame_count : Int) (a : PlayingAudio α) (j : Int) : α :=
  if 0 ≤ j ∧ j < 2 * min (a.sample_count - a.position) frame_count
  then a.samples (a.position + j / 2) else 0

/-- The offset of an access is inside the array it touches: a sample read inside
`[0, sample_count)` of its instance, an output access inside `[0, 2 * frame_count)`. -/
def Access.in_bounds (frame_count : Int) : Access → Prop
  | Access.sampleRead sample_count index => 0 ≤ index ∧ index < sample_count
  | Access.outputAccess index => 0 ≤ index ∧ index < 2 * frame_count

/-- The accesses of `m` consecutive passes of the inner loop body that start at output
index `i` and cursor `position`. -/
def body_accesses (sample_count position i : Int) (m : Nat) : List Access :=
  (List.range m).flatMap fun k =>
    [Access.sampleRead sample_count (position + k),
     Access.outputAccess (i + 2 * k), Access.outputAccess (i + 2 * k + 1)]

/-! ## The kinematic object of `Object.h` -/

/-- The enumeration `enum class ObjectType`. -/
inductive ObjectType where
  | none
  | player
  | pig_king
  | pig
  deriving DecidableEq

/-- The data members of `class Object`; `α` is the type of its `float` members. -/
structure Object (α : Type) where
  m_type : ObjectType
  m_x : α
  m_y : α
  m_width : α
  m_height : α
  m_velocity_x : α
  m_velocity_y : α
  m_on_ground : Bool

/-- The member `explicit operator bool() const { return m_type != ObjectType::none; }`. -/
def Object.operator_bool {α : Type} (o : Object α) : Bool :=
  o.m_type != ObjectType.none

/-- The member `float get_x_at(float frame_pos) const`, in state-passing form: the value
returned, `m_x + m_velocity_x * frame_pos`, and the object after the call, which a
`const` member leaves as it was. -/
def Object.get_x_at {α : Type} [Add α] [Mul α] (o : Object α) (frame_pos : α) : α × Object α :=
  (o.m_x + o.m_velocity_x * frame_pos, o)

/-- The member `float get_y_at(float frame_pos) const`, in state-passing form. -/
def Object.get_y_at {α : Type} [Add α] [Mul α] (o : Object α) (frame_pos : α) : α × Object α :=
  (o.m_y + o.m_velocity_y * frame_pos, o)

/-! ## Concrete data for the worked instances -/

/-- A sample array holding the values of `l` at the offsets `0` to `l.length - 1`, and
zero at every other offset. -/
def samples_of (l : List Int) : Int → Int :=
  fun k => if 0 ≤ k then l.getD k.toNat 0 else 0

/-- An output buffer of zeros. -/
def zero_buffer : Int → Int :=
  fun _ => 0

/-- A music callback that writes nothing. -/
def silent_music : (Int → Int) → Int → (Int → Int) :=
  fun output_frames _ => output_frames

/-- A buffer of ten samples, `1` to `10`. -/
def ten_samples : AudioBuffer Int :=
  ⟨samples_of [1, 2, 3, 4, 5, 6, 7, 8, 9, 10], 10⟩

/-- A buffer of three samples. -/
def three_samples : AudioBuffer Int :=
  ⟨samples_of [100, 200, 300], 3⟩

/-- A buffer without samples. -/
def empty_samples : AudioBuffer Int :=
  ⟨samples_of [], 0⟩

/-! ## The inner loop -/

theorem mix_loop_done {α : Type} [Add α] (sample_count : Int) (st : MixState α)
    (h : ¬ st.i < 2 * sample_count) : mix_loop sample_count st = st := by
  rw [mix_loop, if_neg h]

theorem mix_loop_step {α : Type} [Add α] (sample_count : Int) (st : MixState α)
    (h : st.i < 2 * sample_count) :
    mix_loop sample_count st = mix_loop sample_count (mix_body st) := by
  rw [mix_loop, if_pos h]

/-- A loop with exactly `m` passes left performs `m` passes of the body. -/
theorem mix_loop_iterate {α : Type} [Add α] (sample_count : Int) (m : Nat) :
    ∀ st : MixState α, 2 * sample_count - st.i = 2 * (m : Int) →
      mix_loop sample_count st = mix_body^[m] st := by
  induction m with
  | zero =>
    intro st h
    rw [mix_loop_done sample_count st (by omega)]
    rfl
  | succ m ih =>
    intro st h
    rw [mix_loop_step sample_count st (by omega), Function.iterate_succ_apply]
    apply ih
    simp only [mix_body]
    omega

/-- Entered at output index zero, the inner loop performs `sample_count.toNat` passes:
none when `sample_count` is zero or negative. -/
theorem mix_loop_zero {α : Type} [Add α] (sample_count : Int) (a : PlayingAudio α)
    (out : Int → α) (log : List Access) :
    mix_loop sample_count ⟨0, a, out, log⟩ = mix_body^[sample_count.toNat] ⟨0, a, out, log⟩ := by
  by_cases h : 0 ≤ sample_count
  · apply mix_loop_iterate
    simp only
    omega
  · have h0 : sample_count.toNat = 0 := by omega
    rw [h0, mix_loop_done _ _ (by simp only; omega)]
    rfl

theorem iterate_i {α : Type} [Add α] (m : Nat) (st : MixState α) :
    (mix_body^[m] st).i = st.i + 2 * m := by
  induction m with
  | zero => simp
  | succ m ih =>
    rw [Function.iterate_succ_apply']
    simp only [mix_body, ih]
    push_cast
    ring

theorem iterate_it {α : Type} [Add α] (m : Nat) (st : MixState α) :
    (mix_body^[m] st).it = ⟨st.it.toAudioBuffer, st.it.position + m⟩ := by
  induction m with
  | zero => simp
  | succ m ih =>
    rw [Function.iterate_succ_apply']
    simp only [mix_body, ih]
    push_cast
    congr 1
    ring

theorem iterate_log {α : Type} [Add α] (m : Nat) (st : MixState α) :
    (mix_body^[m] st).log =
      st.log ++ body_accesses st.it.sample_count st.it.position st.i m := by
  induction m with
  | zero => simp [body_accesses]
  | succ m ih =>
    rw [Function.iterate_succ_apply']
    simp only [mix_body, ih, iterate_i, iterate_it, body_accesses, List.range_succ,
      List.flatMap_append, List.append_assoc]
    simp

theorem iterate_output {α : Type} [Add α] (m : Nat) (st : MixState α) (j : Int) :
    (mix_body^[m] st).output_frames j =
      if st.i ≤ j ∧ j < st.i + 2 * m
      then st.output_frames j + st.it.samples (st.it.position + (j - st.i) / 2)
      else st.output_frames j := by
  induction m with
  | zero =>
    have c : ¬ (st.i ≤ j ∧ j < st.i + 2 * ((0 : Nat) : Int)) := by omega
    rw [if_neg c]
    rfl
  | succ m ih =>
    rw [Function.iterate_succ_apply']
    simp only [mix_body, add_at, ih, iterate_i, iterate_it]
    by_cases h1 : j = st.i + 2 * m + 1
    · have e : (j - st.i) / 2 = m := by omega
      have c1 : ¬ (j = st.i + 2 * (m : Int)) := by omega
      have c2 : ¬ (st.i ≤ j ∧ j < st.i + 2 * (m : Int)) := by omega
      have c3 : st.i ≤ j ∧ j < st.i + 2 * ((m + 1 : Nat) : Int) := by omega
      rw [if_pos h1, if_neg c1, if_neg c2, if_pos c3, e]
    · by_cases h2 : j = st.i + 2 * m
      · have e : (j - st.i) / 2 = m := by omega
        have c2 : ¬ (st.i ≤ j ∧ j < st.i + 2 * (m : Int)) := by omega
        have c3 : st.i ≤ j ∧ j < st.i + 2 * ((m + 1 : Nat) : Int) := by omega
        rw [if_neg h1, if_pos h2, if_neg c2, if_pos c3, e]
      · rw [if_neg h1, if_neg h2]
        by_cases h3 : st.i ≤ j ∧ j < st.i + 2 * (m : Int)
        · have c3 : st.i ≤ j ∧ j < st.i + 2 * ((m + 1 : Nat) : Int) := by omega
          rw [if_pos h3, if_pos c3]
        · have c3 : ¬ (st.i ≤ j ∧ j < st.i + 2 * ((m + 1 : Nat) : Int)) := by omega
          rw [if_neg h3, if_neg c3]

/-! ## One instance -/

theorem mix_instance_it {α : Type} [Add α] (frame_count : Int) (a : PlayingAudio α)
    (out : Int → α) (log : List Access) :
    (mix_loop (min (a.sample_count - a.position) frame_count) ⟨0, a, out, log⟩).it =
      advance frame_count a := by
  rw [mix_loop_zero, iterate_it]
  simp only [advance]
  congr 1
  omega

theorem mix_instance_log {α : Type} [Add α] (frame_count : Int) (a : PlayingAudio α)
    (out : Int → α) (log : List Access) :
    (mix_loop (min (a.sample_count - a.position) frame_count) ⟨0, a, out, log⟩).log =
      log ++ body_accesses a.sample_count a.position 0
        (min (a.sample_count - a.position) frame_count).toNat := by
  rw [mix_loop_zero, iterate_log]

theorem mix_instance_output {α : Type} [AddMonoid α] (frame_count : Int) (a : PlayingAudio α)
    (out : Int → α) (log : List Access) (j : Int) :
    (mix_loop (min (a.sample_count - a.position) frame_count) ⟨0, a, out, log⟩).output_frames j =
      out j + contribution frame_count a j := by
  rw [mix_loop_zero, iterate_output]
  simp only [contribution]
  by_cases h : 0 ≤ j ∧ j < 2 * min (a.sample_count - a.position) frame_count
  · have c : (0 : Int) ≤ j ∧
        j < 0 + 2 * ((min (a.sample_count - a.position) frame_count).toNat : Int) := by omega
    rw [if_pos c, if_pos h, sub_zero]
  · have c : ¬ ((0 : Int) ≤ j ∧
        j < 0 + 2 * ((min (a.sample_count - a.position) frame_count).toNat : Int)) := by omega
    rw [if_neg c, if_neg h, add_zero]

/-! ## The outer loop -/

theorem audio_loop_end {α : Type} [Add α] (frame_count : Int) (done : List (PlayingAudio α))
    (out : Int → α) (log : List Access) :
    audio_loop frame_count ⟨done, done.length, out, log⟩ = ⟨done, done.length, out, log⟩ := by
  rw [audio_loop]
  simp

/-- One pass of the outer loop with the iterator on `a`, the elements of `done` before it
and those of `rest` after it. -/
theorem audio_loop_cons {α : Type} [Add α] (frame_count : Int)
    (done : List (PlayingAudio α)) (a : PlayingAudio α) (rest : List (PlayingAudio α))
    (out : Int → α) (log : List Access) :
    audio_loop frame_count ⟨done ++ a :: rest, done.length, out, log⟩ =
      if (advance frame_count a).position = (advance frame_count a).sample_count then
        audio_loop frame_count ⟨done ++ rest, done.length,
          (mix_loop (min (a.sample_count - a.position) frame_count) ⟨0, a, out, log⟩).output_frames,
          (mix_loop (min (a.sample_count - a.position) frame_count) ⟨0, a, out, log⟩).log⟩
      else
        audio_loop frame_count ⟨(done ++ [advance frame_count a]) ++ rest,
          (done ++ [advance frame_count a]).length,
          (mix_loop (min (a.sample_count - a.position) frame_count) ⟨0, a, out, log⟩).output_frames,
          (mix_loop (min (a.sample_count - a.position) frame_count) ⟨0, a, out, log⟩).log⟩ := by
  rw [audio_loop]
  have hlt : done.length < (done ++ a :: rest).length := by simp
  have hget : (done ++ a :: rest).get ⟨done.length, hlt⟩ = a := by
    rw [List.get_eq_getElem]
    simp only
    rw [List.getElem_append_right (le_refl _)]
    simp
  simp only [hlt, dite_true, hget, mix_instance_it]
  have he : (done ++ a :: rest).eraseIdx done.length = done ++ rest := by
    rw [List.eraseIdx_append_of_length_le (le_refl _)]
    simp
  have hs : (done ++ a :: rest).set done.length (advance frame_count a) =
      (done ++ [advance frame_count a]) ++ rest := by
    rw [List.set_append_right _ _ (le_refl _)]
    simp
  rw [he, hs]
  simp

/-- The vector after the outer loop: every instance from the iterator on has been
advanced once, and those that reached their end are gone. -/
theorem audio_loop_active {α : Type} [Add α] (frame_count : Int)
    (rest : List (PlayingAudio α)) :
    ∀ (done : List (PlayingAudio α)) (out : Int → α) (log : List Access),
      (audio_loop frame_count ⟨done ++ rest, done.length, out, log⟩).g_playing_audio =
        done ++ (rest.map (advance frame_count)).filter
          (fun a => decide (a.position ≠ a.sample_count)) := by
  induction rest with
  | nil =>
    intro done out log
    rw [List.append_nil, audio_loop_end]
    simp
  | cons a rest ih =>
    intro done out log
    rw [audio_loop_cons]
    by_cases h : (advance frame_count a).position = (advance frame_count a).sample_count
    · rw [if_pos h, ih]
      simp [h]
    · rw [if_neg h, ih]
      simp [h]

/-- The output memory after the outer loop: every instance from the iterator on has
added its contribution. -/
theorem audio_loop_output {α : Type} [AddMonoid α] (frame_count : Int)
    (rest : List (PlayingAudio α)) (j : Int) :
    ∀ (done : List (PlayingAudio α)) (out : Int → α) (log : List Access),
      (audio_loop frame_count ⟨done ++ rest, done.length, out, log⟩).output_frames j =
        out j + (rest.map (fun a => contribution frame_count a j)).sum := by
  induction rest with
  | nil =>
    intro done out log
    rw [List.append_nil, audio_loop_end]
    simp
  | cons a rest ih =>
    intro done out log
    rw [audio_loop_cons]
    by_cases h : (advance frame_count a).position = (advance frame_count a).sample_count
    · rw [if_pos h, ih, mix_instance_output, List.map_cons, List.sum_cons, add_assoc]
    · rw [if_neg h, ih, mix_instance_output, List.map_cons, List.sum_cons, add_assoc]

/-- The access log after the outer loop: the accesses of every instance from the
iterator on, in order. -/
theorem audio_loop_log {α : Type} [Add α] (frame_count : Int)
    (rest : List (PlayingAudio α)) :
    ∀ (done : List (PlayingAudio α)) (out : Int → α) (log : List Access),
      (audio_loop frame_count ⟨done ++ rest, done.length, out, log⟩).log =
        log ++ rest.flatMap (fun a => body_accesses a.sample_count a.position 0
          (min (a.sample_count - a.position) frame_count).toNat) := by
  induction rest with
  | nil =>
    intro done out log
    rw [List.append_nil, audio_loop_end]
    simp
  | cons a rest ih =>
    intro done out log
    rw [audio_loop_cons]
    by_cases h : (advance frame_count a).position = (advance frame_count a).sample_count
    · rw [if_pos h, ih, mix_instance_log]
      simp
    · rw [if_neg h, ih, mix_instance_log]
      simp

/-! ## The callback as a whole -/

theorem callback_null {α : Type} [Add α] (music : (Int → α) → Int → (Int → α))
    (frame_count_ : Nat) (g : List (PlayingAudio α)) :
    audio_callback music none frame_count_ g = ⟨none, g, []⟩ := rfl

theorem callback_zero {α : Type} [Add α] (music : (Int → α) → Int → (Int → α))
    (out : Int → α) (frame_count_ : Nat) (g : List (PlayingAudio α))
    (h : static_cast_int frame_count_ = 0) :
    audio_callback music (some out) frame_count_ g = ⟨some out, g, []⟩ := by
  simp [audio_callback, h]

theorem callback_mix {α : Type} [Add α] (music : (Int → α) → Int → (Int → α))
    (out : Int → α) (frame_count_ : Nat) (g : List (PlayingAudio α))
    (h : static_cast_int frame_count_ ≠ 0) :
    audio_callback music (some out) frame_count_ g =
      ⟨some (audio_loop (static_cast_int frame_count_)
          ⟨[] ++ g, ([] : List (PlayingAudio α)).length,
            music out (static_cast_int frame_count_), []⟩).output_frames,
       (audio_loop (static_cast_int frame_count_)
          ⟨[] ++ g, ([] : List (PlayingAudio α)).length,
            music out (static_cast_int frame_count_), []⟩).g_playing_audio,
       (audio_loop (static_cast_int frame_count_)
          ⟨[] ++ g, ([] : List (PlayingAudio α)).length,
            music out (static_cast_int frame_count_), []⟩).log⟩ := by
  simp [audio_callback, h]

/-- The vector after a call that mixes. -/
theorem callback_active {α : Type} [Add α] (music : (Int → α) → Int → (Int → α))
    (out : Int → α) (frame_count_ : Nat) (g : List (PlayingAudio α))
    (h : static_cast_int frame_count_ ≠ 0) :
    (audio_callback music (some out) frame_count_ g).g_playing_audio =
      (g.map (advance (static_cast_int frame_count_))).filter
        (fun a => decide (a.position ≠ a.sample_count)) := by
  rw [callback_mix music out frame_count_ g h]
  simp only
  rw [audio_loop_active]
  simp

/-- The output memory after a call that mixes. -/
theorem callback_output {α : Type} [AddMonoid α] (music : (Int → α) → Int → (Int → α))
    (out : Int → α) (frame_count_ : Nat) (g : List (PlayingAudio α))
    (h : static_cast_int frame_count_ ≠ 0) :
    (audio_callback music (some out) frame_count_ g).output_frames =
      some (fun j => music out (static_cast_int frame_count_) j +
        (g.map (fun a => contribution (static_cast_int frame_count_) a j)).sum) := by
  rw [callback_mix music out frame_count_ g h]
  simp only
  congr 1
  funext j
  rw [audio_loop_output]

/-- The access log of a call that mixes. -/
theorem callback_log {α : Type} [Add α] (music : (Int → α) → Int → (Int → α))
    (out : Int → α) (frame_count_ : Nat) (g : List (PlayingAudio α))
    (h : static_cast_int frame_count_ ≠ 0) :
    (audio_callback music (some out) frame_count_ g).log =
      g.flatMap (fun a => body_accesses a.sample_count a.position 0
        (min (a.sample_count - a.position) (static_cast_int frame_count_)).toNat) := by
  rw [callback_mix music out frame_count_ g h]
  simp only
  rw [audio_loop_log]
  simp

/-- The vector after any call, split along a concatenation. -/
theorem callback_active_append {α : Type} [Add α] (music : (Int → α) → Int → (Int → α))
    (output_frames_ : Option (Int → α)) (frame_count_ : Nat) (g1 g2 : List (PlayingAudio α)) :
    (audio_callback music output_frames_ frame_count_ (g1 ++ g2)).g_playing_audio =
      (audio_callback music output_frames_ frame_count_ g1).g_playing_audio ++
      (audio_callback music output_frames_ frame_count_ g2).g_playing_audio := by
  cases output_frames_ with
  | none => simp [callback_null]
  | some out =>
    by_cases h : static_cast_int frame_count_ = 0
    · simp [callback_zero, h]
    · simp [callback_active, h]

theorem callback_active_nil {α : Type} [Add α] (music : (Int → α) → Int → (Int → α))
    (output_frames_ : Option (Int → α)) (frame_count_ : Nat) :
    (audio_callback music output_frames_ frame_count_ []).g_playing_audio = [] := by
  cases output_frames_ with
  | none => simp [callback_null]
  | some out =>
    by_cases h : static_cast_int frame_count_ = 0
    · simp [callback_zero, h]
    · simp [callback_active, h]

/-! ## Sums of contributions -/

theorem sum_map_ite_zero {α β : Type} [AddMonoid α] (p : β → Prop) [DecidablePred p]
    (f : β → α) (l : List β) :
    (l.map (fun a => if p a then f a else 0)).sum =
      ((l.filter (fun a => decide (p a))).map f).sum := by
  induction l with
  | nil => simp
  | cons a l ih =>
    by_cases h : p a
    · simp [h, ih]
    · simp [h, ih]

theorem contribution_left {α : Type} [Zero α] (frame_count : Int) (a : PlayingAudio α)
    (i : Int) (h0 : 0 ≤ i) (h1 : i < frame_count) :
    contribution frame_count a (2 * i) =
      if i < a.sample_count - a.position then a.samples (a.position + i) else 0 := by
  simp only [contribution]
  have e : 2 * i / 2 = i := by omega
  by_cases h : i < a.sample_count - a.position
  · have c : 0 ≤ 2 * i ∧ 2 * i < 2 * min (a.sample_count - a.position) frame_count := by omega
    rw [if_pos c, if_pos h, e]
  · have c : ¬ (0 ≤ 2 * i ∧ 2 * i < 2 * min (a.sample_count - a.position) frame_count) := by
      omega
    rw [if_neg c, if_neg h]

theorem contribution_right {α : Type} [Zero α] (frame_count : Int) (a : PlayingAudio α)
    (i : Int) (h0 : 0 ≤ i) (h1 : i < frame_count) :
    contribution frame_count a (2 * i + 1) =
      if i < a.sample_count - a.position then a.samples (a.position + i) else 0 := by
  simp only [contribution]
  have e : (2 * i + 1) / 2 = i := by omega
  by_cases h : i < a.sample_count - a.position
  · have c : 0 ≤ 2 * i + 1 ∧ 2 * i + 1 < 2 * min (a.sample_count - a.position) frame_count := by
      omega
    rw [if_pos c, if_pos h, e]
  · have c : ¬ (0 ≤ 2 * i + 1 ∧
        2 * i + 1 < 2 * min (a.sample_count - a.position) frame_count) := by omega
    rw [if_neg c, if_neg h]

theorem contribution_outside {α : Type} [Zero α] (frame_count : Int) (a : PlayingAudio α)
    (j : Int) (h : j < 0 ∨ 2 * frame_count ≤ j) : contribution frame_count a j = 0 := by
  simp only [contribution]
  have c : ¬ (0 ≤ j ∧ j < 2 * min (a.sample_count - a.position) frame_count) := by omega
  rw [if_neg c]

/-! ## Claims about one call -/

/-- C1: after `audio_callback` on a non-null buffer, every frame `i` with
`0 ≤ i < frame_count` has its left element `2 * i` and its right element `2 * i + 1`
equal to what the music callback left there plus the sum, over the active instances
whose remaining frames `sample_count - position` exceed `i`, of `samples[position + i]`;
the addition is the only operation applied.  In particular two instances that both
have more than `i` frames left, mixed into a buffer the music left at zero, give
`a_i + b_i` in both elements of frame `i`. -/
theorem audio_callback_adds_instances {α : Type} [AddCommMonoid α]
    (music : (Int → α) → Int → (Int → α)) (out : Int → α) (frame_count_ : Nat)
    (i : Int) (h0 : 0 ≤ i) (h1 : i < static_cast_int frame_count_) :
    (∀ g : List (PlayingAudio α),
      ∃ mixed, (audio_callback music (some out) frame_count_ g).output_frames = some mixed ∧
        mixed (2 * i) = music out (static_cast_int frame_count_) (2 * i) +
          ((g.filter (fun a => decide (i < a.sample_count - a.position))).map
            (fun a => a.samples (a.position + i))).sum ∧
        mixed (2 * i + 1) = music out (static_cast_int frame_count_) (2 * i + 1) +
          ((g.filter (fun a => decide (i < a.sample_count - a.position))).map
            (fun a => a.samples (a.position + i))).sum) ∧
    (∀ a b : PlayingAudio α, i < a.sample_count - a.position →
      i < b.sample_count - b.position →
      (∀ j, music out (static_cast_int frame_count_) j = 0) →
      ∃ mixed, (audio_callback music (some out) frame_count_ [a, b]).output_frames = some mixed ∧
        mixed (2 * i) = a.samples (a.position + i) + b.samples (b.position + i) ∧
        mixed (2 * i + 1) = a.samples (a.position + i) + b.samples (b.position + i)) := by
  have hne : static_cast_int frame_count_ ≠ 0 := by omega
  have hgen : ∀ g : List (PlayingAudio α),
      ∃ mixed, (audio_callback music (some out) frame_count_ g).output_frames = some mixed ∧
        mixed (2 * i) = music out (static_cast_int frame_count_) (2 * i) +
          ((g.filter (fun a => decide (i < a.sample_count - a.position))).map
            (fun a => a.samples (a.position + i))).sum ∧
        mixed (2 * i + 1) = music out (static_cast_int frame_count_) (2 * i + 1) +
          ((g.filter (fun a => decide (i < a.sample_count - a.position))).map
            (fun a => a.samples (a.position + i))).sum := by
    intro g
    refine ⟨_, callback_output music out frame_count_ g hne, ?_, ?_⟩
    · simp only [contribution_left _ _ i h0 h1]
      rw [sum_map_ite_zero]
    · simp only [contribution_right _ _ i h0 h1]
      rw [sum_map_ite_zero]
  refine ⟨hgen, ?_⟩
  intro a b ha hb hz
  obtain ⟨mixed, hm, hl, hr⟩ := hgen [a, b]
  refine ⟨mixed, hm, ?_, ?_⟩
  · rw [hl, hz]
    simp [ha, hb]
  · rw [hr, hz]
    simp [ha, hb]

/-- C1, a worked instance: two fresh instances of three and of ten samples, a zero
buffer that the music leaves at zero, and frame `1` of a call with four frames. -/
theorem audio_callback_adds_instances_witness :
    ((0 : Int) ≤ 1 ∧ (1 : Int) < static_cast_int 4 ∧
      (1 : Int) < three_samples.sample_count - 0 ∧ (1 : Int) < ten_samples.sample_count - 0 ∧
      (∀ j, silent_music zero_buffer (static_cast_int 4) j = 0)) ∧
    (∃ mixed,
      (audio_callback silent_music (some zero_buffer) 4
        [⟨three_samples, 0⟩, ⟨ten_samples, 0⟩]).output_frames = some mixed ∧
      mixed (2 * 1) = silent_music zero_buffer (static_cast_int 4) (2 * 1) +
        (([(⟨three_samples, 0⟩ : PlayingAudio Int), ⟨ten_samples, 0⟩].filter
          (fun a => decide (1 < a.sample_count - a.position))).map
          (fun a => a.samples (a.position + 1))).sum ∧
      mixed (2 * 1 + 1) = silent_music zero_buffer (static_cast_int 4) (2 * 1 + 1) +
        (([(⟨three_samples, 0⟩ : PlayingAudio Int), ⟨ten_samples, 0⟩].filter
          (fun a => decide (1 < a.sample_count - a.position))).map
          (fun a => a.samples (a.position + 1))).sum) ∧
    (∃ mixed,
      (audio_callback silent_music (some zero_buffer) 4
        [⟨three_samples, 0⟩, ⟨ten_samples, 0⟩]).output_frames = some mixed ∧
      mixed (2 * 1) = three_samples.samples (0 + 1) + ten_samples.samples (0 + 1) ∧
      mixed (2 * 1 + 1) = three_samples.samples (0 + 1) + ten_samples.samples (0 + 1)) :=
  ⟨⟨by decide, by decide, by decide, by decide, fun _ => rfl⟩,
    (audio_callback_adds_instances silent_music zero_buffer 4 1 (by decide) (by decide)).1
      [⟨three_samples, 0⟩, ⟨ten_samples, 0⟩],
    (audio_callback_adds_instances silent_music zero_buffer 4 1 (by decide) (by decide)).2
      ⟨three_samples, 0⟩ ⟨ten_samples, 0⟩ (by decide) (by decide) (fun _ => rfl)⟩

/-- C6: mixing has no error result, and the degenerate calls do nothing.  With a frame
count of zero, or with a null output pointer, the call returns the output buffer and
the vector of instances (cursors included) as they were and touches no element.  With no
active instance the vector stays empty and the output buffer is what the music callback
left, the callback being invoked exactly when the buffer is non-null and the frame
count is not zero. -/
theorem degenerate_calls_do_nothing {α : Type} [Add α]
    (music : (Int → α) → Int → (Int → α)) :
    (∀ (output_frames_ : Option (Int → α)) (g : List (PlayingAudio α)),
      audio_callback music output_frames_ 0 g = ⟨output_frames_, g, []⟩) ∧
    (∀ (frame_count_ : Nat) (g : List (PlayingAudio α)),
      audio_callback music none frame_count_ g = ⟨none, g, []⟩) ∧
    (∀ (out : Int → α) (frame_count_ : Nat),
      audio_callback music (some out) frame_count_ [] =
        ⟨some (if static_cast_int frame_count_ = 0 then out
                else music out (static_cast_int frame_count_)), [], []⟩) := by
  refine ⟨?_, ?_, ?_⟩
  · intro output_frames_ g
    cases output_frames_ with
    | none => rfl
    | some out => exact callback_zero music out 0 g (by decide)
  · intro frame_count_ g
    rfl
  · intro out frame_count_
    by_cases h : static_cast_int frame_count_ = 0
    · rw [callback_zero music out frame_count_ [] h, if_pos h]
    · rw [callback_mix music out frame_count_ [] h, if_neg h]
      simp only [List.append_nil]
      rw [audio_loop_end]

/-! ## One instance among others, over several calls -/

theorem run_ops_cons {α : Type} [Add α] (music : (Int → α) → Int → (Int → α))
    (op : Op α) (ops : List (Op α)) (g : List (PlayingAudio α)) :
    run_ops music (op :: ops) g = run_ops music ops (Op.apply music g op) := rfl

/-- The instances present before a sequence of operations see only its callbacks; the
buffers it registers go behind them. -/
theorem run_ops_append {α : Type} [Add α] (music : (Int → α) → Int → (Int → α))
    (ops : List (Op α)) :
    ∀ g1 g2 : List (PlayingAudio α),
      run_ops music ops (g1 ++ g2) =
        run_ops music (ops.filter Op.is_callback) g1 ++ run_ops music ops g2 := by
  induction ops with
  | nil => intro g1 g2; rfl
  | cons op ops ih =>
    intro g1 g2
    cases op with
    | play buffer =>
      have hf : (Op.play buffer :: ops).filter Op.is_callback = ops.filter Op.is_callback := by
        simp [Op.is_callback]
      rw [hf, run_ops_cons, run_ops_cons]
      simp only [Op.apply, platform_play_audio]
      rw [List.append_assoc, ih]
    | callback output_frames_ frame_count_ =>
      have hf : (Op.callback output_frames_ frame_count_ :: ops).filter Op.is_callback =
          Op.callback output_frames_ frame_count_ :: ops.filter Op.is_callback := by
        simp [Op.is_callback]
      rw [hf, run_ops_cons, run_ops_cons, run_ops_cons]
      simp only [Op.apply]
      rw [callback_active_append, ih]

theorem run_ops_callbacks_nil {α : Type} [Add α] (music : (Int → α) → Int → (Int → α))
    (ops : List (Op α)) : run_ops music (ops.filter Op.is_callback) [] = [] := by
  induction ops with
  | nil => rfl
  | cons op ops ih =>
    cases op with
    | play buffer =>
      have hf : (Op.play buffer :: ops).filter Op.is_callback = ops.filter Op.is_callback := by
        simp [Op.is_callback]
      rw [hf, ih]
    | callback output_frames_ frame_count_ =>
      have hf : (Op.callback output_frames_ frame_count_ :: ops).filter Op.is_callback =
          Op.callback output_frames_ frame_count_ :: ops.filter Op.is_callback := by
        simp [Op.is_callback]
      rw [hf, run_ops_cons]
      simp only [Op.apply]
      rw [callback_active_nil, ih]

theorem frames_requested_cons {α : Type} (op : Op α) (ops : List (Op α)) :
    frames_requested (op :: ops) = op.frames + frames_requested ops := by
  simp [frames_requested]

theorem frames_requested_nonneg {α : Type} (ops : List (Op α))
    (h : ∀ op ∈ ops, op.mixes) : 0 ≤ frames_requested ops := by
  induction ops with
  | nil => simp [frames_requested]
  | cons op ops ih =>
    have hops := ih (fun d hd => h d (List.mem_cons_of_mem _ hd))
    have hop := h op (List.mem_cons_self _ _)
    rw [frames_requested_cons]
    cases op with
    | play buffer =>
      simp only [Op.frames]
      omega
    | callback output_frames_ frame_count_ =>
      simp only [Op.frames]
      have := hop.2
      omega

/-- A call that mixes, on an instance alone: it stays, advanced by the frame count, when
more frames than that are left, and goes otherwise. -/
theorem callback_single {α : Type} [Add α] (music : (Int → α) → Int → (Int → α))
    (out : Int → α) (frame_count_ : Nat) (buffer : AudioBuffer α) (p : Int)
    (hfc : 0 < static_cast_int frame_count_) (hp : p ≤ buffer.sample_count) :
    (audio_callback music (some out) frame_count_ [⟨buffer, p⟩]).g_playing_audio =
      if p + static_cast_int frame_count_ < buffer.sample_count
      then [⟨buffer, p + static_cast_int frame_count_⟩] else [] := by
  rw [callback_active music out frame_count_ _ (by omega)]
  simp only [List.map_cons, List.map_nil, advance]
  by_cases h : p + static_cast_int frame_count_ < buffer.sample_count
  · have e : p + max 0 (min (buffer.sample_count - p) (static_cast_int frame_count_)) =
        p + static_cast_int frame_count_ := by omega
    have hne : p + static_cast_int frame_count_ ≠ buffer.sample_count := by omega
    rw [if_pos h, e]
    simp [hne]
  · have e : p + max 0 (min (buffer.sample_count - p) (static_cast_int frame_count_)) =
        buffer.sample_count := by omega
    rw [if_neg h, e]
    simp

/-- An instance alone, over operations whose callbacks all mix: either it is still
there, its cursor advanced by the frames requested so far, or the frames requested so
far reach its end and it is gone. -/
theorem run_ops_single {α : Type} [Add α] (music : (Int → α) → Int → (Int → α))
    (buffer : AudioBuffer α) (ops : List (Op α)) :
    ∀ p : Int, p ≤ buffer.sample_count → (∀ op ∈ ops, op.mixes) →
      (run_ops music (ops.filter Op.is_callback) [⟨buffer, p⟩] =
          [⟨buffer, p + frames_requested ops⟩] ∧
        p + frames_requested ops ≤ buffer.sample_count) ∨
      (run_ops music (ops.filter Op.is_callback) [⟨buffer, p⟩] = [] ∧
        buffer.sample_count ≤ p + frames_requested ops) := by
  induction ops with
  | nil =>
    intro p hp _
    left
    simp [run_ops, frames_requested, hp]
  | cons op ops ih =>
    intro p hp hops
    have hrest : ∀ d ∈ ops, d.mixes := fun d hd => hops d (List.mem_cons_of_mem _ hd)
    have hK := frames_requested_nonneg ops hrest
    have hop := hops op (List.mem_cons_self _ _)
    rw [frames_requested_cons]
    cases op with
    | play played =>
      have hf : (Op.play played :: ops).filter Op.is_callback = ops.filter Op.is_callback := by
        simp [Op.is_callback]
      rw [hf]
      simp only [Op.frames, zero_add]
      exact ih p hp hrest
    | callback output_frames_ frame_count_ =>
      have hf : (Op.callback output_frames_ frame_count_ :: ops).filter Op.is_callback =
          Op.callback output_frames_ frame_count_ :: ops.filter Op.is_callback := by
        simp [Op.is_callback]
      obtain ⟨⟨out, hout⟩, hfc⟩ := hop
      rw [hf, run_ops_cons]
      simp only [Op.apply, Op.frames]
      rw [hout, callback_single music out frame_count_ buffer p hfc hp]
      by_cases h : p + static_cast_int frame_count_ < buffer.sample_count
      · rw [if_pos h]
        have := ih (p + static_cast_int frame_count_) (by omega) hrest
        rw [add_assoc] at this
        exact this
      · rw [if_neg h, run_ops_callbacks_nil]
        right
        exact ⟨rfl, by omega⟩

/-- C2: a buffer of `N ≥ 0` samples is registered by `platform_play_audio`, among any
instances before it (`pre`) and after it (`post`); operations follow, registrations of
other buffers and calls that mix, and `K` is the total of the frame counts of those
calls.  In the next call, with `k > 0` frames, the instance adds its sample `K + i` to
both elements of frame `i` for exactly the frames `i < k` with `K + i < N`, on top of
what the same call produces had the buffer never been registered; and after the call
the instance is in the vector, at cursor `K + k`, exactly when `K + k < N`, the other
instances being those the call leaves had the buffer never been registered. -/
theorem consumption_across_calls {α : Type} [AddCommMonoid α]
    (music : (Int → α) → Int → (Int → α)) (buffer : AudioBuffer α)
    (pre post : List (PlayingAudio α)) (ops : List (Op α))
    (out : Int → α) (frame_count_ : Nat)
    (hN : 0 ≤ buffer.sample_count) (hops : ∀ op ∈ ops, op.mixes)
    (hfc : 0 < static_cast_int frame_count_) :
    ∃ mixed others before after,
      (audio_callback music (some out) frame_count_
        (run_ops music ops (platform_play_audio buffer pre ++ post))).output_frames
          = some mixed ∧
      (audio_callback music (some out) frame_count_
        (run_ops music ops (pre ++ post))).output_frames = some others ∧
      (∀ i : Int, 0 ≤ i → i < static_cast_int frame_count_ →
        mixed (2 * i) = others (2 * i) +
          (if frames_requested ops + i < buffer.sample_count
            then buffer.samples (frames_requested ops + i) else 0) ∧
        mixed (2 * i + 1) = others (2 * i + 1) +
          (if frames_requested ops + i < buffer.sample_count
            then buffer.samples (frames_requested ops + i) else 0)) ∧
      (audio_callback music (some out) frame_count_
        (run_ops music ops (pre ++ post))).g_playing_audio = before ++ after ∧
      (audio_callback music (some out) frame_count_
        (run_ops music ops (platform_play_audio buffer pre ++ post))).g_playing_audio =
        before ++
          (if frames_requested ops + static_cast_int frame_count_ < buffer.sample_count
            then [⟨buffer, frames_requested ops + static_cast_int frame_count_⟩] else []) ++
          after := by
  have hne : static_cast_int frame_count_ ≠ 0 := by omega
  have hsplit : run_ops music ops (platform_play_audio buffer pre ++ post) =
      run_ops music (ops.filter Op.is_callback) pre ++
        run_ops music (ops.filter Op.is_callback) [⟨buffer, 0⟩] ++
        run_ops music ops post := by
    simp only [platform_play_audio]
    rw [run_ops_append, run_ops_append]
    simp only [List.filter_filter, Bool.and_self]
  have hothers : run_ops music ops (pre ++ post) =
      run_ops music (ops.filter Op.is_callback) pre ++ run_ops music ops post :=
    run_ops_append music ops pre post
  rw [hsplit, hothers]
  rcases run_ops_single music buffer ops 0 hN hops with ⟨hX, hK⟩ | ⟨hX, hK⟩
  · rw [hX]
    rw [zero_add] at hK ⊢
    have hK0 := frames_requested_nonneg ops hops
    refine ⟨_, _,
      (audio_callback music (some out) frame_count_
        (run_ops music (ops.filter Op.is_callback) pre)).g_playing_audio,
      (audio_callback music (some out) frame_count_ (run_ops music ops post)).g_playing_audio,
      callback_output music out frame_count_ _ hne,
      callback_output music out frame_count_ _ hne, ?_, ?_, ?_⟩
    · intro i h0 h1
      simp only [List.map_append, List.sum_append, List.map_cons, List.map_nil, List.sum_cons,
        List.sum_nil, add_zero, contribution_left _ _ i h0 h1, contribution_right _ _ i h0 h1]
      have hiff : (i < buffer.sample_count - frames_requested ops) ↔
          (frames_requested ops + i < buffer.sample_count) := by omega
      simp only [hiff]
      constructor <;> abel
    · rw [callback_active_append]
    · rw [callback_active_append, callback_active_append,
        callback_single music out frame_count_ buffer _ hfc hK]
  · rw [hX]
    refine ⟨_, _,
      (audio_callback music (some out) frame_count_
        (run_ops music (ops.filter Op.is_callback) pre)).g_playing_audio,
      (audio_callback music (some out) frame_count_ (run_ops music ops post)).g_playing_audio,
      callback_output music out frame_count_ _ hne,
      callback_output music out frame_count_ _ hne, ?_, ?_, ?_⟩
    · intro i h0 h1
      have hno : ¬ (frames_requested ops + i < buffer.sample_count) := by omega
      simp only [List.append_nil, if_neg hno, add_zero]
      exact ⟨trivial, trivial⟩
    · rw [callback_active_append]
    · have hno : ¬ (frames_requested ops + static_cast_int frame_count_ <
          buffer.sample_count) := by omega
      rw [if_neg hno, List.append_nil, List.append_nil, callback_active_append]

/-- C2, the worked instance of the specification: ten samples, a first call of six
frames made, a second call of six frames under way. -/
theorem consumption_across_calls_witness :
    (0 ≤ ten_samples.sample_count ∧
      (∀ op ∈ [(Op.callback (some zero_buffer) 6 : Op Int)], op.mixes) ∧
      0 < static_cast_int 6) ∧
    (∃ mixed others before after,
      (audio_callback silent_music (some zero_buffer) 6
        (run_ops silent_music [Op.callback (some zero_buffer) 6]
          (platform_play_audio ten_samples [] ++ []))).output_frames = some mixed ∧
      (audio_callback silent_music (some zero_buffer) 6
        (run_ops silent_music [Op.callback (some zero_buffer) 6] ([] ++ []))).output_frames
          = some others ∧
      (∀ i : Int, 0 ≤ i → i < static_cast_int 6 →
        mixed (2 * i) = others (2 * i) +
          (if frames_requested [(Op.callback (some zero_buffer) 6 : Op Int)] + i
              < ten_samples.sample_count
            then ten_samples.samples
              (frames_requested [(Op.callback (some zero_buffer) 6 : Op Int)] + i)
            else 0) ∧
        mixed (2 * i + 1) = others (2 * i + 1) +
          (if frames_requested [(Op.callback (some zero_buffer) 6 : Op Int)] + i
              < ten_samples.sample_count
            then ten_samples.samples
              (frames_requested [(Op.callback (some zero_buffer) 6 : Op Int)] + i)
            else 0)) ∧
      (audio_callback silent_music (some zero_buffer) 6
        (run_ops silent_music [Op.callback (some zero_buffer) 6] ([] ++ []))).g_playing_audio
          = before ++ after ∧
      (audio_callback silent_music (some zero_buffer) 6
        (run_ops silent_music [Op.callback (some zero_buffer) 6]
          (platform_play_audio ten_samples [] ++ []))).g_playing_audio =
        before ++
          (if frames_requested [(Op.callback (some zero_buffer) 6 : Op Int)]
              + static_cast_int 6 < ten_samples.sample_count
            then [⟨ten_samples,
              frames_requested [(Op.callback (some zero_buffer) 6 : Op Int)]
                + static_cast_int 6⟩]
            else []) ++
          after) := by
  have hops : ∀ op ∈ [(Op.callback (some zero_buffer) 6 : Op Int)], op.mixes := by
    intro op hop
    simp only [List.mem_singleton] at hop
    subst hop
    exact ⟨⟨zero_buffer, rfl⟩, by decide⟩
  exact ⟨⟨by decide, hops, by decide⟩,
    consumption_across_calls silent_music ten_samples [] [] [Op.callback (some zero_buffer) 6]
      zero_buffer 6 (by decide) hops (by decide)⟩

/-! ## Exhaustion in one call -/

/-- C3, as stated, fails at `N = 0` with a frame count of zero: the frame count is at
least `N`, yet the guard `if (output_frames && frame_count)` skips the loop, and the
instance registered by `platform_play_audio` is still in the vector after the call,
at cursor zero. -/
theorem exhaustion_counterexample :
    empty_samples.sample_count ≤ static_cast_int 0 ∧
    ((audio_callback silent_music (some zero_buffer) 0
        (platform_play_audio empty_samples [])).g_playing_audio.map
      (fun a => (a.sample_count, a.position))) = [(0, 0)] := by
  refine ⟨by decide, ?_⟩
  rw [callback_zero silent_music zero_buffer 0 _ (by decide)]
  rfl

/-- C3, amended: an instance with `sample_count = N ≥ 0` at cursor zero, among any other
instances, and a call with a non-null output buffer and a frame count that is positive
and at least `N`.  The call adds sample `i` of the instance to both elements of frame
`i` for exactly the frames `i < N`, on top of what the call produces without the
instance; it reads the samples `0` to `N - 1` once each, in order, between the accesses
for the instances before and after; and the vector it leaves is the one the call leaves
without the instance, so that every later sequence of operations proceeds without it. -/
theorem exhaustion_in_one_call {α : Type} [AddCommMonoid α]
    (music : (Int → α) → Int → (Int → α)) (buffer : AudioBuffer α)
    (pre post : List (PlayingAudio α)) (out : Int → α) (frame_count_ : Nat)
    (hN : 0 ≤ buffer.sample_count) (hfc : 0 < static_cast_int frame_count_)
    (hge : buffer.sample_count ≤ static_cast_int frame_count_) :
    (∃ mixed others,
      (audio_callback music (some out) frame_count_
        (pre ++ ⟨buffer, 0⟩ :: post)).output_frames = some mixed ∧
      (audio_callback music (some out) frame_count_ (pre ++ post)).output_frames
        = some others ∧
      ∀ i : Int, 0 ≤ i →
        mixed (2 * i) = others (2 * i) +
          (if i < buffer.sample_count then buffer.samples i else 0) ∧
        mixed (2 * i + 1) = others (2 * i + 1) +
          (if i < buffer.sample_count then buffer.samples i else 0)) ∧
    (audio_callback music (some out) frame_count_ (pre ++ ⟨buffer, 0⟩ :: post)).log =
      (audio_callback music (some out) frame_count_ pre).log ++
        body_accesses buffer.sample_count 0 0 buffer.sample_count.toNat ++
        (audio_callback music (some out) frame_count_ post).log ∧
    (audio_callback music (some out) frame_count_
        (pre ++ ⟨buffer, 0⟩ :: post)).g_playing_audio =
      (audio_callback music (some out) frame_count_ (pre ++ post)).g_playing_audio ∧
    (∀ ops : List (Op α),
      run_ops music ops (audio_callback music (some out) frame_count_
        (pre ++ ⟨buffer, 0⟩ :: post)).g_playing_audio =
      run_ops music ops (audio_callback music (some out) frame_count_
        (pre ++ post)).g_playing_audio) := by
  have hne : static_cast_int frame_count_ ≠ 0 := by omega
  have hactive : (audio_callback music (some out) frame_count_
        (pre ++ ⟨buffer, 0⟩ :: post)).g_playing_audio =
      (audio_callback music (some out) frame_count_ (pre ++ post)).g_playing_audio := by
    have hcons : pre ++ ⟨buffer, 0⟩ :: post = pre ++ ([⟨buffer, 0⟩] ++ post) := rfl
    have hgone : ¬ (0 + static_cast_int frame_count_ < buffer.sample_count) := by omega
    rw [hcons, callback_active_append, callback_active_append,
      callback_single music out frame_count_ buffer 0 hfc hN, if_neg hgone,
      callback_active_append, List.nil_append]
  refine ⟨⟨_, _, callback_output music out frame_count_ _ hne,
    callback_output music out frame_count_ _ hne, ?_⟩, ?_, hactive, ?_⟩
  · intro i h0
    have hmin : min (buffer.sample_count - 0) (static_cast_int frame_count_) =
        buffer.sample_count := by omega
    have e1 : 2 * i / 2 = i := by omega
    have e2 : (2 * i + 1) / 2 = i := by omega
    have hl : contribution (static_cast_int frame_count_) (⟨buffer, 0⟩ : PlayingAudio α) (2 * i) =
        if i < buffer.sample_count then buffer.samples i else 0 := by
      simp only [contribution, hmin, e1, zero_add]
      by_cases h : i < buffer.sample_count
      · rw [if_pos h, if_pos (by omega)]
      · rw [if_neg h, if_neg (by omega)]
    have hr : contribution (static_cast_int frame_count_) (⟨buffer, 0⟩ : PlayingAudio α)
        (2 * i + 1) = if i < buffer.sample_count then buffer.samples i else 0 := by
      simp only [contribution, hmin, e2, zero_add]
      by_cases h : i < buffer.sample_count
      · rw [if_pos h, if_pos (by omega)]
      · rw [if_neg h, if_neg (by omega)]
    simp only [List.map_append, List.sum_append, List.map_cons, List.sum_cons, hl, hr]
    constructor <;> abel
  · have hmin : min (buffer.sample_count - 0) (static_cast_int frame_count_) =
        buffer.sample_count := by omega
    rw [callback_log music out frame_count_ _ hne, callback_log music out frame_count_ _ hne,
      callback_log music out frame_count_ _ hne]
    simp only [List.flatMap_append, List.flatMap_cons, hmin, List.append_assoc]
  · intro ops
    rw [hactive]

/-- C3 amended, a worked instance: three samples, one call of six frames, an unfinished
instance before and after. -/
theorem exhaustion_in_one_call_witness :
    (0 ≤ three_samples.sample_count ∧ 0 < static_cast_int 6 ∧
      three_samples.sample_count ≤ static_cast_int 6) ∧
    ((∃ mixed others,
      (audio_callback silent_music (some zero_buffer) 6
        ([⟨ten_samples, 2⟩] ++ ⟨three_samples, 0⟩ :: [⟨ten_samples, 0⟩])).output_frames
          = some mixed ∧
      (audio_callback silent_music (some zero_buffer) 6
        ([⟨ten_samples, 2⟩] ++ [⟨ten_samples, 0⟩])).output_frames = some others ∧
      ∀ i : Int, 0 ≤ i →
        mixed (2 * i) = others (2 * i) +
          (if i < three_samples.sample_count then three_samples.samples i else 0) ∧
        mixed (2 * i + 1) = others (2 * i + 1) +
          (if i < three_samples.sample_count then three_samples.samples i else 0)) ∧
    (audio_callback silent_music (some zero_buffer) 6
        ([⟨ten_samples, 2⟩] ++ ⟨three_samples, 0⟩ :: [⟨ten_samples, 0⟩])).log =
      (audio_callback silent_music (some zero_buffer) 6 [⟨ten_samples, 2⟩]).log ++
        body_accesses three_samples.sample_count 0 0 three_samples.sample_count.toNat ++
        (audio_callback silent_music (some zero_buffer) 6 [⟨ten_samples, 0⟩]).log ∧
    (audio_callback silent_music (some zero_buffer) 6
        ([⟨ten_samples, 2⟩] ++ ⟨three_samples, 0⟩ :: [⟨ten_samples, 0⟩])).g_playing_audio =
      (audio_callback silent_music (some zero_buffer) 6
        ([⟨ten_samples, 2⟩] ++ [⟨ten_samples, 0⟩])).g_playing_audio ∧
    (∀ ops : List (Op Int),
      run_ops silent_music ops (audio_callback silent_music (some zero_buffer) 6
        ([⟨ten_samples, 2⟩] ++ ⟨three_samples, 0⟩ :: [⟨ten_samples, 0⟩])).g_playing_audio =
      run_ops silent_music ops (audio_callback silent_music (some zero_buffer) 6
        ([⟨ten_samples, 2⟩] ++ [⟨ten_samples, 0⟩])).g_playing_audio)) :=
  ⟨⟨by decide, by decide, by decide⟩,
    exhaustion_in_one_call silent_music three_samples [⟨ten_samples, 2⟩] [⟨ten_samples, 0⟩]
      zero_buffer 6 (by decide) (by decide) (by decide)⟩

/-! ## The cursor invariant -/

theorem advance_cursor_ok {α : Type} (frame_count : Int) (a : PlayingAudio α)
    (h : cursor_ok a) : cursor_ok (advance frame_count a) := by
  simp only [cursor_ok, advance] at h ⊢
  omega

theorem play_cursor_ok {α : Type} (buffer : AudioBuffer α) (g : List (PlayingAudio α))
    (hg : ∀ a ∈ g, cursor_ok a) (hb : 0 ≤ buffer.sample_count) :
    ∀ a ∈ platform_play_audio buffer g, cursor_ok a := by
  intro a ha
  simp only [platform_play_audio, List.mem_append, List.mem_singleton] at ha
  rcases ha with ha | rfl
  · exact hg a ha
  · exact ⟨le_refl _, hb⟩

theorem callback_cursor_ok {α : Type} [Add α] (music : (Int → α) → Int → (Int → α))
    (output_frames_ : Option (Int → α)) (frame_count_ : Nat) (g : List (PlayingAudio α))
    (hg : ∀ a ∈ g, cursor_ok a) :
    ∀ a ∈ (audio_callback music output_frames_ frame_count_ g).g_playing_audio,
      cursor_ok a := by
  cases output_frames_ with
  | none => simpa [callback_null] using hg
  | some out =>
    by_cases h : static_cast_int frame_count_ = 0
    · simpa [callback_zero, h] using hg
    · intro a ha
      rw [callback_active music out frame_count_ g h] at ha
      simp only [List.mem_filter, List.mem_map] at ha
      obtain ⟨⟨b, hb, rfl⟩, _⟩ := ha
      exact advance_cursor_ok _ b (hg b hb)

theorem run_ops_cursor_ok {α : Type} [Add α] (music : (Int → α) → Int → (Int → α))
    (ops : List (Op α)) :
    ∀ g : List (PlayingAudio α), (∀ a ∈ g, cursor_ok a) →
      (∀ buffer, Op.play buffer ∈ ops → 0 ≤ buffer.sample_count) →
      ∀ a ∈ run_ops music ops g, cursor_ok a := by
  induction ops with
  | nil =>
    intro g hg _
    simpa [run_ops] using hg
  | cons op ops ih =>
    intro g hg hops
    have hstep : ∀ a ∈ Op.apply music g op, cursor_ok a := by
      cases op with
      | play buffer =>
        exact play_cursor_ok buffer g hg (hops buffer (List.mem_cons_self _ _))
      | callback output_frames_ frame_count_ =>
        exact callback_cursor_ok music output_frames_ frame_count_ g hg
    have htail : ∀ buffer, Op.play buffer ∈ ops → 0 ≤ buffer.sample_count :=
      fun buffer hb => hops buffer (List.mem_cons_of_mem _ hb)
    have := ih (Op.apply music g op) hstep htail
    simpa [run_ops] using this

/-- C4: in every state reached from the empty vector by calls of `platform_play_audio`
with buffers of non-negative `sample_count` and by calls of `audio_callback` with any
arguments, every active instance has `0 ≤ position ≤ sample_count`; and each of the two
operations keeps that property of the vector. -/
theorem cursor_stays_within_bounds {α : Type} [Add α]
    (music : (Int → α) → Int → (Int → α)) :
    (∀ ops : List (Op α), (∀ buffer, Op.play buffer ∈ ops → 0 ≤ buffer.sample_count) →
      ∀ a ∈ run_ops music ops [], cursor_ok a) ∧
    (∀ (buffer : AudioBuffer α) (g : List (PlayingAudio α)), (∀ a ∈ g, cursor_ok a) →
      0 ≤ buffer.sample_count → ∀ a ∈ platform_play_audio buffer g, cursor_ok a) ∧
    (∀ (output_frames_ : Option (Int → α)) (frame_count_ : Nat) (g : List (PlayingAudio α)),
      (∀ a ∈ g, cursor_ok a) →
      ∀ a ∈ (audio_callback music output_frames_ frame_count_ g).g_playing_audio,
        cursor_ok a) :=
  ⟨fun ops hops => run_ops_cursor_ok music ops [] (by simp) hops,
   fun buffer g hg hb => play_cursor_ok buffer g hg hb,
   fun output_frames_ frame_count_ g hg =>
     callback_cursor_ok music output_frames_ frame_count_ g hg⟩

/-- C4, a worked instance with live cursors.  Buffers of ten and of three samples are
queued and a call of two frames is made, which leaves both instances at cursor two; a
second buffer of three samples is then queued, and a further call of two frames leaves
the first instance at cursor four, erases the second and leaves the third at cursor
two.  The three states are evaluated, so the invariant is asserted of instances that are
there. -/
theorem cursor_stays_within_bounds_witness :
    ((∀ buffer, Op.play buffer ∈
        [Op.play ten_samples, Op.play three_samples, Op.callback (some zero_buffer) 2] →
      0 ≤ buffer.sample_count) ∧
      0 ≤ three_samples.sample_count) ∧
    ((run_ops silent_music
        [Op.play ten_samples, Op.play three_samples, Op.callback (some zero_buffer) 2] []).map
        (fun a => (a.sample_count, a.position)) = [(10, 2), (3, 2)] ∧
      ∀ a ∈ run_ops silent_music
        [Op.play ten_samples, Op.play three_samples, Op.callback (some zero_buffer) 2] [],
        cursor_ok a) ∧
    ((platform_play_audio three_samples (run_ops silent_music
        [Op.play ten_samples, Op.play three_samples, Op.callback (some zero_buffer) 2] [])).map
        (fun a => (a.sample_count, a.position)) = [(10, 2), (3, 2), (3, 0)] ∧
      ∀ a ∈ platform_play_audio three_samples (run_ops silent_music
        [Op.play ten_samples, Op.play three_samples, Op.callback (some zero_buffer) 2] []),
        cursor_ok a) ∧
    ((audio_callback silent_music (some zero_buffer) 2
        (platform_play_audio three_samples (run_ops silent_music
          [Op.play ten_samples, Op.play three_samples, Op.callback (some zero_buffer) 2]
          []))).g_playing_audio.map
        (fun a => (a.sample_count, a.position)) = [(10, 4), (3, 2)] ∧
      ∀ a ∈ (audio_callback silent_music (some zero_buffer) 2
        (platform_play_audio three_samples (run_ops silent_music
          [Op.play ten_samples, Op.play three_samples, Op.callback (some zero_buffer) 2]
          []))).g_playing_audio,
        cursor_ok a) := by
  have hops : ∀ buffer, Op.play buffer ∈
        [Op.play ten_samples, Op.play three_samples, Op.callback (some zero_buffer) 2] →
      0 ≤ buffer.sample_count := by
    intro buffer hb
    simp only [List.mem_cons, Op.play.injEq, List.mem_singleton, reduceCtorEq, or_false,
      List.not_mem_nil] at hb
    rcases hb with rfl | rfl
    · decide
    · decide
  have hrun : run_ops silent_music
      [Op.play ten_samples, Op.play three_samples, Op.callback (some zero_buffer) 2] [] =
      ([⟨ten_samples, 0⟩, ⟨three_samples, 0⟩].map (advance (static_cast_int 2))).filter
        (fun a => decide (a.position ≠ a.sample_count)) := by
    simp only [run_ops, List.foldl, Op.apply, platform_play_audio, List.nil_append,
      List.cons_append]
    rw [callback_active silent_music zero_buffer 2 _ (by decide)]
  have h1 := (cursor_stays_within_bounds silent_music).1 _ hops
  have h2 := (cursor_stays_within_bounds silent_music).2.1 three_samples _ h1 (by decide)
  have h3 := (cursor_stays_within_bounds silent_music).2.2 (some zero_buffer) 2 _ h2
  refine ⟨⟨hops, by decide⟩, ⟨?_, h1⟩, ⟨?_, h2⟩, ⟨?_, h3⟩⟩
  · rw [hrun]
    decide
  · rw [hrun]
    decide
  · rw [hrun, callback_active silent_music zero_buffer 2 _ (by decide)]
    decide

/-! ## Order of the active set -/

/-- C9: the order of the active set does not matter.  For two vectors that are
permutations of each other and the same arguments, `audio_callback` leaves the same
output buffer (over exact arithmetic) and two vectors that are permutations of each
other, cursors included.  Every instance is processed exactly once per call, erasures
notwithstanding: a call that mixes leaves each instance advanced once, drops those that
reached their end, and makes the accesses of each instance once, in order. -/
theorem mixing_ignores_order {α : Type} [AddCommMonoid α]
    (music : (Int → α) → Int → (Int → α)) (output_frames_ : Option (Int → α))
    (frame_count_ : Nat) (g1 g2 : List (PlayingAudio α)) (h : g1.Perm g2) :
    (audio_callback music output_frames_ frame_count_ g1).output_frames =
      (audio_callback music output_frames_ frame_count_ g2).output_frames ∧
    (audio_callback music output_frames_ frame_count_ g1).g_playing_audio.Perm
      (audio_callback music output_frames_ frame_count_ g2).g_playing_audio ∧
    (∀ out, output_frames_ = some out → static_cast_int frame_count_ ≠ 0 →
      (audio_callback music output_frames_ frame_count_ g1).g_playing_audio =
        (g1.map (advance (static_cast_int frame_count_))).filter
          (fun a => decide (a.position ≠ a.sample_count)) ∧
      (audio_callback music output_frames_ frame_count_ g1).log =
        g1.flatMap (fun a => body_accesses a.sample_count a.position 0
          (min (a.sample_count - a.position) (static_cast_int frame_count_)).toNat)) := by
  refine ⟨?_, ?_, ?_⟩
  · cases output_frames_ with
    | none => rfl
    | some out =>
      by_cases h0 : static_cast_int frame_count_ = 0
      · rw [callback_zero music out frame_count_ g1 h0, callback_zero music out frame_count_ g2 h0]
      · rw [callback_output music out frame_count_ g1 h0,
          callback_output music out frame_count_ g2 h0]
        congr 1
        funext j
        rw [(h.map (fun a => contribution (static_cast_int frame_count_) a j)).sum_eq]
  · cases output_frames_ with
    | none => simpa [callback_null] using h
    | some out =>
      by_cases h0 : static_cast_int frame_count_ = 0
      · simpa [callback_zero, h0] using h
      · rw [callback_active music out frame_count_ g1 h0,
          callback_active music out frame_count_ g2 h0]
        exact (h.map _).filter _
  · intro out hout h0
    subst hout
    exact ⟨callback_active music out frame_count_ g1 h0,
      callback_log music out frame_count_ g1 h0⟩

/-- C9, a worked instance: an instance of ten samples and one of three samples, in
either order, in a call of six frames that erases the shorter one. -/
theorem mixing_ignores_order_witness :
    (List.Perm [(⟨ten_samples, 0⟩ : PlayingAudio Int), ⟨three_samples, 0⟩]
        [⟨three_samples, 0⟩, ⟨ten_samples, 0⟩] ∧
      some zero_buffer = some zero_buffer ∧ static_cast_int 6 ≠ 0) ∧
    (audio_callback silent_music (some zero_buffer) 6
        [⟨ten_samples, 0⟩, ⟨three_samples, 0⟩]).output_frames =
      (audio_callback silent_music (some zero_buffer) 6
        [⟨three_samples, 0⟩, ⟨ten_samples, 0⟩]).output_frames ∧
    (audio_callback silent_music (some zero_buffer) 6
        [⟨ten_samples, 0⟩, ⟨three_samples, 0⟩]).g_playing_audio.Perm
      (audio_callback silent_music (some zero_buffer) 6
        [⟨three_samples, 0⟩, ⟨ten_samples, 0⟩]).g_playing_audio ∧
    (audio_callback silent_music (some zero_buffer) 6
        [⟨ten_samples, 0⟩, ⟨three_samples, 0⟩]).g_playing_audio =
      (([⟨ten_samples, 0⟩, ⟨three_samples, 0⟩] : List (PlayingAudio Int)).map
        (advance (static_cast_int 6))).filter
        (fun a => decide (a.position ≠ a.sample_count)) ∧
    (audio_callback silent_music (some zero_buffer) 6
        [⟨ten_samples, 0⟩, ⟨three_samples, 0⟩]).log =
      ([⟨ten_samples, 0⟩, ⟨three_samples, 0⟩] : List (PlayingAudio Int)).flatMap
        (fun a => body_accesses a.sample_count a.position 0
          (min (a.sample_count - a.position) (static_cast_int 6)).toNat) :=
  ⟨⟨List.Perm.swap _ _ _, rfl, by decide⟩,
    (mixing_ignores_order silent_music (some zero_buffer) 6 _ _ (List.Perm.swap _ _ _)).1,
    (mixing_ignores_order silent_music (some zero_buffer) 6 _ _ (List.Perm.swap _ _ _)).2.1,
    ((mixing_ignores_order silent_music (some zero_buffer) 6 _ _ (List.Perm.swap _ _ _)).2.2
      zero_buffer rfl (by decide)).1,
    ((mixing_ignores_order silent_music (some zero_buffer) 6 _ _ (List.Perm.swap _ _ _)).2.2
      zero_buffer rfl (by decide)).2⟩

/-! ## Bounds of the accesses -/

theorem mem_body_accesses (sample_count position i : Int) (m : Nat) (e : Access)
    (h : e ∈ body_accesses sample_count position i m) :
    ∃ k : Nat, k < m ∧ (e = Access.sampleRead sample_count (position + k) ∨
      e = Access.outputAccess (i + 2 * k) ∨ e = Access.outputAccess (i + 2 * k + 1)) := by
  simp only [body_accesses, List.mem_flatMap, List.mem_range, List.mem_cons,
    List.mem_singleton, List.not_mem_nil, or_false] at h
  exact h

/-- C10: when every active instance has `0 ≤ position ≤ sample_count` and the frame
count is positive, every sample offset read during `audio_callback` lies in
`[0, sample_count)` of the instance read, and every output offset accessed lies in
`[0, 2 * frame_count)`.  Given that each instance owns `sample_count` samples and the
output buffer `2 * frame_count` elements, no access leaves its array. -/
theorem mixer_accesses_in_bounds {α : Type} [Add α]
    (music : (Int → α) → Int → (Int → α)) (out : Int → α) (frame_count_ : Nat)
    (g : List (PlayingAudio α)) (hg : ∀ a ∈ g, cursor_ok a)
    (hfc : 0 < static_cast_int frame_count_) :
    ∀ e ∈ (audio_callback music (some out) frame_count_ g).log,
      Access.in_bounds (static_cast_int frame_count_) e := by
  intro e he
  rw [callback_log music out frame_count_ g (by omega)] at he
  simp only [List.mem_flatMap] at he
  obtain ⟨a, ha, hea⟩ := he
  obtain ⟨k, hk, hcases⟩ := mem_body_accesses _ _ _ _ _ hea
  have hc := hg a ha
  simp only [cursor_ok] at hc
  rcases hcases with rfl | rfl | rfl
  · simp only [Access.in_bounds]
    omega
  · simp only [Access.in_bounds]
    omega
  · simp only [Access.in_bounds]
    omega

/-- C10, a worked instance: an instance of ten samples at cursor six and a fresh one
of three samples, in a call of six frames. -/
theorem mixer_accesses_in_bounds_witness :
    ((∀ a ∈ [(⟨ten_samples, 6⟩ : PlayingAudio Int), ⟨three_samples, 0⟩], cursor_ok a) ∧
      0 < static_cast_int 6) ∧
    (∀ e ∈ (audio_callback silent_music (some zero_buffer) 6
        [⟨ten_samples, 6⟩, ⟨three_samples, 0⟩]).log,
      Access.in_bounds (static_cast_int 6) e) := by
  have hg : ∀ a ∈ [(⟨ten_samples, 6⟩ : PlayingAudio Int), ⟨three_samples, 0⟩],
      cursor_ok a := by
    intro a ha
    simp only [List.mem_cons, List.mem_singleton, List.not_mem_nil, or_false] at ha
    rcases ha with rfl | rfl
    · exact ⟨by decide, by decide⟩
    · exact ⟨by decide, by decide⟩
  exact ⟨⟨hg, by decide⟩,
    mixer_accesses_in_bounds silent_music zero_buffer 6 _ hg (by decide)⟩

/-! ## The order of the additions

The statements above sum over exact arithmetic.  The next one needs no law of
addition at all, and so holds of any rounding addition as well: every element of the
output is the music value to which the samples of the instances that reach it are
added one after the other, in the order of the vector. -/

theorem audio_loop_output_fold {α : Type} [Add α] (frame_count : Int)
    (rest : List (PlayingAudio α)) (j : Int) :
    ∀ (done : List (PlayingAudio α)) (out : Int → α) (log : List Access),
      (audio_loop frame_count ⟨done ++ rest, done.length, out, log⟩).output_frames j =
        ((rest.filter (fun a => decide
            (0 ≤ j ∧ j < 2 * min (a.sample_count - a.position) frame_count))).map
          (fun a => a.samples (a.position + j / 2))).foldl (fun x y => x + y) (out j) := by
  induction rest with
  | nil =>
    intro done out log
    rw [List.append_nil, audio_loop_end]
    rfl
  | cons a rest ih =>
    intro done out log
    have hone : (mix_loop (min (a.sample_count - a.position) frame_count)
        ⟨0, a, out, log⟩).output_frames j =
        if 0 ≤ j ∧ j < 2 * min (a.sample_count - a.position) frame_count
        then out j + a.samples (a.position + j / 2) else out j := by
      rw [mix_loop_zero, iterate_output]
      by_cases h : 0 ≤ j ∧ j < 2 * min (a.sample_count - a.position) frame_count
      · have c : (0 : Int) ≤ j ∧
            j < 0 + 2 * ((min (a.sample_count - a.position) frame_count).toNat : Int) := by
          omega
        rw [if_pos c, if_pos h, sub_zero]
      · have c : ¬ ((0 : Int) ≤ j ∧
            j < 0 + 2 * ((min (a.sample_count - a.position) frame_count).toNat : Int)) := by
          omega
        rw [if_neg c, if_neg h]
    rw [audio_loop_cons]
    by_cases h : (advance frame_count a).position = (advance frame_count a).sample_count
    · rw [if_pos h, ih, hone]
      by_cases hj : 0 ≤ j ∧ j < 2 * min (a.sample_count - a.position) frame_count
      · simp [hj]
      · simp [hj]
    · rw [if_neg h, ih, hone]
      by_cases hj : 0 ≤ j ∧ j < 2 * min (a.sample_count - a.position) frame_count
      · simp [hj]
      · simp [hj]

/-! ## The examples of the specification, evaluated -/

/-- Two instances `[100, 200, 300]` and `[1, ..., 10]` mixed into a zero buffer in a call
of four frames give the duplicated sums over the common frames and the longer instance
alone after them; the shorter instance is erased, the longer one stays at cursor
four. -/
theorem example_two_instances :
    ∃ mixed,
      (audio_callback silent_music (some zero_buffer) 4
        [⟨three_samples, 0⟩, ⟨ten_samples, 0⟩]).output_frames = some mixed ∧
      (List.range 10).map (fun j => mixed (j : Int)) =
        [101, 101, 202, 202, 303, 303, 4, 4, 0, 0] ∧
      (audio_callback silent_music (some zero_buffer) 4
        [⟨three_samples, 0⟩, ⟨ten_samples, 0⟩]).g_playing_audio.map
          (fun a => (a.sample_count, a.position)) = [(10, 4)] := by
  refine ⟨_, callback_output silent_music zero_buffer 4 _ (by decide), ?_, ?_⟩
  · decide
  · rw [callback_active silent_music zero_buffer 4 _ (by decide)]
    decide

/-- Ten samples, first call of six frames: samples `0` to `5` are added and the
instance stays at cursor six. -/
theorem example_first_call :
    ∃ mixed,
      (audio_callback silent_music (some zero_buffer) 6
        (platform_play_audio ten_samples [])).output_frames = some mixed ∧
      (List.range 14).map (fun j => mixed (j : Int)) =
        [1, 1, 2, 2, 3, 3, 4, 4, 5, 5, 6, 6, 0, 0] ∧
      (audio_callback silent_music (some zero_buffer) 6
        (platform_play_audio ten_samples [])).g_playing_audio.map
          (fun a => (a.sample_count, a.position)) = [(10, 6)] := by
  refine ⟨_, callback_output silent_music zero_buffer 6 _ (by decide), ?_, ?_⟩
  · decide
  · rw [callback_active silent_music zero_buffer 6 _ (by decide)]
    decide

/-- Ten samples, second call of six frames: samples `6` to `9` are added to the first
four frames only, and the instance is erased. -/
theorem example_second_call :
    ∃ mixed,
      (audio_callback silent_music (some zero_buffer) 6
        [⟨ten_samples, 6⟩]).output_frames = some mixed ∧
      (List.range 14).map (fun j => mixed (j : Int)) =
        [7, 7, 8, 8, 9, 9, 10, 10, 0, 0, 0, 0, 0, 0] ∧
      (audio_callback silent_music (some zero_buffer) 6
        [⟨ten_samples, 6⟩]).g_playing_audio.map
          (fun a => (a.sample_count, a.position)) = [] ∧
      (audio_callback silent_music (some zero_buffer) 6 [⟨ten_samples, 6⟩]).log =
        [Access.sampleRead 10 6, Access.outputAccess 0, Access.outputAccess 1,
         Access.sampleRead 10 7, Access.outputAccess 2, Access.outputAccess 3,
         Access.sampleRead 10 8, Access.outputAccess 4, Access.outputAccess 5,
         Access.sampleRead 10 9, Access.outputAccess 6, Access.outputAccess 7] := by
  refine ⟨_, callback_output silent_music zero_buffer 6 _ (by decide), ?_, ?_, ?_⟩
  · decide
  · rw [callback_active silent_music zero_buffer 6 _ (by decide)]
    decide
  · rw [callback_log silent_music zero_buffer 6 _ (by decide)]
    decide

/-! ## Claims about the object -/

/-- C7: for an object at `(x, y)` with velocity `(vx, vy)` and for every `f`, whatever
its range, `get_x_at(f)` returns `x + vx * f` and `get_y_at(f)` returns `y + vy * f`,
and the object after the call is the object before it. -/
theorem get_at_is_linear {α : Type} [Add α] [Mul α] (t : ObjectType)
    (x y w h vx vy : α) (ground : Bool) (f : α) :
    Object.get_x_at ⟨t, x, y, w, h, vx, vy, ground⟩ f =
      (x + vx * f, ⟨t, x, y, w, h, vx, vy, ground⟩) ∧
    Object.get_y_at ⟨t, x, y, w, h, vx, vy, ground⟩ f =
      (y + vy * f, ⟨t, x, y, w, h, vx, vy, ground⟩) :=
  ⟨rfl, rfl⟩

/-- C8: the conversion of an object to `bool` is true exactly when its tag is not
`none`; the tag `none` gives false and the tags `player`, `pig_king` and `pig` give
true, whatever the other members hold. -/
theorem operator_bool_iff_tag {α : Type} (t : ObjectType) (x y w h vx vy : α)
    (ground : Bool) :
    (Object.operator_bool ⟨t, x, y, w, h, vx, vy, ground⟩ = true ↔ t ≠ ObjectType.none) ∧
    Object.operator_bool ⟨ObjectType.none, x, y, w, h, vx, vy, ground⟩ = false ∧
    Object.operator_bool ⟨ObjectType.player, x, y, w, h, vx, vy, ground⟩ = true ∧
    Object.operator_bool ⟨ObjectType.pig_king, x, y, w, h, vx, vy, ground⟩ = true ∧
    Object.operator_bool ⟨ObjectType.pig, x, y, w, h, vx, vy, ground⟩ = true := by
  refine ⟨?_, rfl, rfl, rfl, rfl⟩
  cases t <;> simp [Object.operator_bool]

end Crown
